import Mathlib

/-!
Shallow embedding of the Lumi ledger engine.

The embedded code is `src/blockchain/index.js` (the `Blockchain` class:
`validTransactionData`, `isValidChain`, `replaceChain`) and the
`BLOCKCHAIN`-channel branch of the PubSub listener in `src/unnamed/part_000`.
Collaborators whose sources are not in the repository snapshot
(`Block.genesis`, `Wallet.calculateBalance`, `Transaction.validTransaction`,
the `crypto-hash` module, the `config` constants) are modelled from the spec;
each such definition says so in its doc comment.

JavaScript numbers are modelled as `Int`, object identity of transaction
objects as an explicit `ref : Nat` tag, and optional / loosely-typed
arguments of `replaceChain` as the `JsArg` type with JavaScript truthiness.
-/

namespace Lumi

/-- A serializable hash input: either a string or a number.  Each argument of
the hash function is independently serialized to a canonical string form. -/
inductive Jv where
  | str (s : String)
  | num (n : Int)
deriving DecidableEq

/-- Canonical string serialization of one hash input (strings are quoted,
numbers printed in decimal), standing for `JSON.stringify` of that input. -/
def stringify : Jv → String
  | .str s => "\x22" ++ s ++ "\x22"
  | .num n => toString n

/-- Modelled from the spec: the fixed 256-bit cryptographic digest function
(SHA-256 in the repository; its source is not in the snapshot).  Modelled as
a concrete deterministic function of the input string rendered in lowercase
hexadecimal; the claims proved here depend only on determinism. -/
def digestModel (s : String) : String :=
  String.mk (Nat.toDigits 16 (s.data.foldl (fun h c => (h * 1000003 + c.toNat) % (2 ^ 256)) 7))

/-- Lexicographic comparison of code-point lists, the order used to sort the
serialized hash inputs. -/
def natListLe : List Nat → List Nat → Bool
  | [], _ => true
  | _ :: _, [] => false
  | a :: as, b :: bs => if a < b then true else if b < a then false else natListLe as bs

/-- Lexicographic order on strings by code points. -/
def strLe (s t : String) : Bool :=
  natListLe (s.data.map Char.toNat) (t.data.map Char.toNat)

/-- Modelled from the spec: `cryptoHash` (the `crypto-hash` module; only its
test file is in the snapshot).  Inputs are independently serialized to a
canonical string form, sorted, concatenated, and passed through the fixed
digest function. -/
def cryptoHash (inputs : List Jv) : String :=
  digestModel (String.join (List.insertionSort (fun a b => strLe a b = true) (inputs.map stringify)))

/-- The `input` field of a transaction. -/
structure TxInput where
  timestamp : Int
  amount : Int
  address : String
  signature : String
deriving DecidableEq

/-- A transaction object.  `ref` is the JavaScript object identity of the
instance (two list entries with equal `ref` are the same object); `id`,
`input` and `outputMap` are its content.  `outputMap` is an association list
of address/amount pairs in object-key insertion order. -/
structure Tx where
  ref : Nat
  id : String
  input : TxInput
  outputMap : List (String × Int)
deriving DecidableEq

/-- A block of the ledger. -/
structure Block where
  timestamp : Int
  lastHash : String
  hash : String
  data : List Tx
  nonce : Int
  difficulty : Int
deriving DecidableEq

/-- Modelled from the spec: the reserved `REWARD_INPUT.address` constant from
`config` (not in the snapshot); a fixed string shared by all nodes. -/
def rewardAddress : String := "*authorized-reward*"

/-- Modelled from the spec: the fixed `MINING_REWARD` constant from `config`
(not in the snapshot). -/
def MINING_REWARD : Int := 50

/-- Serialization of an output map, used inside transaction serialization
and the signature model. -/
def serOutputMap (om : List (String × Int)) : String :=
  String.intercalate "," (om.map fun p => p.1 ++ ":" ++ toString p.2)

/-- Serialization of a transaction input. -/
def serInput (i : TxInput) : String :=
  i.address ++ "|" ++ toString i.amount ++ "|" ++ toString i.timestamp ++ "|" ++ i.signature

/-- Content serialization of one transaction (object identity `ref` is not
part of the serialized form, as in `JSON.stringify`). -/
def serTx (t : Tx) : String :=
  "(" ++ t.id ++ ";" ++ serInput t.input ++ ";" ++ serOutputMap t.outputMap ++ ")"

/-- Serialization of a block's `data` payload. -/
def serData (l : List Tx) : String :=
  "[" ++ String.intercalate "," (l.map serTx) ++ "]"

/-- Modelled from the spec: `Block.genesis()` (the `block` module is not in
the snapshot) — the fixed, hard-coded constant block with no predecessor. -/
def genesisB : Block :=
  { timestamp := 1, lastHash := "-----", hash := "hash-one",
    data := [], nonce := 0, difficulty := 3 }

/-- The digest re-derived from a block's `timestamp`, `lastHash`, `data`,
`nonce` and `difficulty`, as in `cryptoHash(timestamp, lastHash, data, nonce,
difficulty)` on line 86 of `src/blockchain/index.js`. -/
def blockHash (b : Block) : String :=
  cryptoHash [Jv.num b.timestamp, Jv.str b.lastHash, Jv.str (serData b.data),
    Jv.num b.nonce, Jv.num b.difficulty]

/-- The three per-block checks of `isValidChain` for a block `b` whose
predecessor is `prev` (lines 84–90 of `src/blockchain/index.js`). -/
def adjOk (prev b : Block) : Bool :=
  (b.lastHash = prev.hash) && (b.hash = blockHash b) &&
    ((prev.difficulty - b.difficulty).natAbs ≤ 1)

/-- The loop of `isValidChain`: every block of `l` passes `adjOk` against its
predecessor, the first one against `prev`. -/
def chainOk : Block → List Block → Bool
  | _, [] => true
  | prev, b :: rest => adjOk prev b && chainOk b rest

/-- `Blockchain.isValidChain` (lines 74–94 of `src/blockchain/index.js`):
the first block must equal the genesis constant, then the per-block checks
run for every later block.  An empty chain fails the genesis comparison. -/
def isValidChain : List Block → Bool
  | [] => false
  | g :: rest => if g = genesisB then chainOk g rest else false

example : isValidChain [genesisB] = true := by decide
example : isValidChain [] = false := by decide

/-- Modelled from the spec: the amount recorded the last time `address`
spent inside block `b` — the `input.amount` of the latest transaction of the
block whose `input.address` is `address`, if any. -/
def lastSpend (b : Block) (address : String) : Option Int :=
  match (b.data.filter (fun t => t.input.address = address)).getLast? with
  | some t => some t.input.amount
  | none => none

/-- Modelled from the spec: credits received by `address` in block `b` — the
sum over the block's transactions of `outputMap[address]`, absent entries
counting 0. -/
def blockCredits (b : Block) (address : String) : Int :=
  (b.data.map (fun t => (t.outputMap.lookup address).getD 0)).sum

/-- Modelled from the spec: the backward scan of `Wallet.calculateBalance`
over blocks listed most-recent first.  Balance starts at 0; each block
without a spend by `address` adds its credits; the first block containing a
spend returns that spend's recorded `input.amount` and stops the scan. -/
def balanceScan (address : String) : List Block → Int
  | [] => 0
  | b :: older =>
    match lastSpend b address with
    | some amt => amt
    | none => blockCredits b address + balanceScan address older

/-- Modelled from the spec: `Wallet.calculateBalance(chain, address)` (the
`wallet` module is not in the snapshot) — scan the chain from the most
recent block backward toward genesis. -/
def calculateBalance (chain : List Block) (address : String) : Int :=
  balanceScan address chain.reverse

/-- Modelled from the spec: the signature produced by the signature
collaborator's `sign` over the serialized output map; `verifySig` below
checks a signature against it.  A concrete executable stand-in for the
opaque capability. -/
def sigOf (publicKey : String) (om : List (String × Int)) : String :=
  "sig(" ++ publicKey ++ ";" ++ serOutputMap om ++ ")"

/-- Modelled from the spec: `verify(publicKey, data, signature)` of the
signature collaborator, over the serialized output map. -/
def verifySig (publicKey : String) (om : List (String × Int)) (signature : String) : Bool :=
  signature = sigOf publicKey om

/-- Sum of the values of an output map. -/
def outputTotal (om : List (String × Int)) : Int :=
  (om.map Prod.snd).sum

/-- Modelled from the spec: `Transaction.validTransaction(transaction)` (the
`wallet/transaction` module is not in the snapshot) — the output map must
sum to `input.amount` and the signature over the serialized output map must
verify against `input.address` as the public key.  Content-based: the object
identity `ref` plays no part. -/
def validTransaction (t : Tx) : Bool :=
  (outputTotal t.outputMap = t.input.amount) &&
    verifySig t.input.address t.outputMap t.input.signature

/-- The inner transaction loop of `Blockchain.validTransactionData`
(lines 30–68 of `src/blockchain/index.js`) for one block, carrying the
running reward-transaction count and the set of object identities seen so
far (`transactionSet`, populated only by non-reward transactions). -/
def vtxGo (localChain : List Block) : List Tx → Nat → List Nat → Bool
  | [], _, _ => true
  | t :: rest, rewardCount, seen =>
    if t.input.address = rewardAddress then
      if rewardCount + 1 > 1 then false
      else if (t.outputMap.map Prod.snd).head? ≠ some MINING_REWARD then false
      else vtxGo localChain rest (rewardCount + 1) seen
    else
      if ¬ validTransaction t then false
      else if t.input.amount ≠ calculateBalance localChain t.input.address then false
      else if seen.contains t.ref then false
      else vtxGo localChain rest rewardCount (t.ref :: seen)

/-- `Blockchain.validTransactionData({ chain })` (lines 23–72 of
`src/blockchain/index.js`).  `localChain` is `this.chain` of the validating
node: the balance check runs against it, never against the candidate.  The
loop starts at index 1, so the candidate's block 0 is never inspected; the
reward count and the seen set are fresh for every block. -/
def validTransactionData (localChain chain : List Block) : Bool :=
  (chain.drop 1).all (fun b => vtxGo localChain b.data 0 [])

/-- A value passed into a JavaScript parameter position: `undefined` when
the call site supplies no argument, a boolean, or a function object. -/
inductive JsArg where
  | undef
  | boolean (b : Bool)
  | callback (tag : Nat)
deriving DecidableEq

/-- JavaScript truthiness of a `JsArg`: `undefined` is falsy, a boolean is
itself, a function object is truthy. -/
def truthy : JsArg → Bool
  | .undef => false
  | .boolean b => b
  | .callback _ => true

/-- Outcome of one `replaceChain` call: the value of `this.chain` afterwards
and whether `onSuccess()` was invoked. -/
structure ReplaceResult where
  chain : List Block
  onSuccessCalled : Bool
deriving DecidableEq

/-- `Blockchain.replaceChain(chain, validateTransactions, onSuccess)`
(lines 96–115 of `src/blockchain/index.js`).  Rejects (leaving `this.chain`
alone) when the candidate is not longer, when `isValidChain` fails, or when
`validateTransactions` is truthy and `validTransactionData` fails; otherwise
runs `if (onSuccess) onSuccess()` and assigns the candidate to
`this.chain`. -/
def replaceChain (selfChain cand : List Block)
    (validateTransactions onSuccess : JsArg) : ReplaceResult :=
  if cand.length ≤ selfChain.length then ⟨selfChain, false⟩
  else if ¬ isValidChain cand then ⟨selfChain, false⟩
  else if truthy validateTransactions && ¬ validTransactionData selfChain cand then
    ⟨selfChain, false⟩
  else ⟨cand, truthy onSuccess⟩

/-- The `BLOCKCHAIN`-channel branch of the PubSub listener (lines 34–41 of
`src/unnamed/part_000`): `this.blockchain.replaceChain(parsedMessage, () =>
{ this.transactionPool.clearBlockchainTransactions({ chain: parsedMessage });
})` — a call with two arguments, so the pool-clearing arrow function is
bound to the `validateTransactions` parameter and `onSuccess` is
`undefined`. -/
def chainUpdateCall (selfChain parsedMessage : List Block) : ReplaceResult :=
  replaceChain selfChain parsedMessage (JsArg.callback 0) JsArg.undef

/-- A concrete block extending the genesis block into a structurally valid
two-block chain: its `hash` is the re-derived digest of its own fields and
its difficulty stays within 1 of the genesis difficulty. -/
def nextBlock : Block :=
  { timestamp := 2, lastHash := "hash-one",
    hash := cryptoHash [Jv.num 2, Jv.str "hash-one", Jv.str (serData []),
      Jv.num 0, Jv.num 3],
    data := [], nonce := 0, difficulty := 3 }

example : isValidChain [genesisB, nextBlock] = true := by decide
example : validTransactionData [genesisB] [genesisB, nextBlock] = true := by decide
example : calculateBalance [genesisB] "alice" = 0 := by decide

/-- A well-formed non-reward transaction: outputs sum to `input.amount`, the
signature verifies, and the claimed amount 0 matches the balance of
`"alice"` on the local chain `[genesisB]`. -/
def txA : Tx :=
  { ref := 1, id := "tx-a",
    input := { timestamp := 5, amount := 0, address := "alice",
               signature := sigOf "alice" [("bob", 0)] },
    outputMap := [("bob", 0)] }

/-- A distinct transaction object (`ref` 2) carrying exactly the same
content as `txA`. -/
def txB : Tx := { txA with ref := 2 }

/-- A block whose data holds two distinct-but-content-equal transactions. -/
def dupContentBlock : Block :=
  { timestamp := 2, lastHash := "hash-one", hash := "h-dup-content",
    data := [txA, txB], nonce := 0, difficulty := 3 }

/-- A block whose data lists the same transaction instance twice. -/
def dupInstanceBlock : Block :=
  { timestamp := 2, lastHash := "hash-one", hash := "h-dup-instance",
    data := [txA, txA], nonce := 0, difficulty := 3 }

/-- A non-reward transaction that is internally consistent (sum and
signature) but claims `input.amount = 5` while `"alice"` holds 0 on the
local chain `[genesisB]`. -/
def badBalanceTx : Tx :=
  { ref := 3, id := "tx-bad-balance",
    input := { timestamp := 4, amount := 5, address := "alice",
               signature := sigOf "alice" [("bob", 5)] },
    outputMap := [("bob", 5)] }

/-- A block carrying `badBalanceTx`. -/
def badBalanceBlock : Block :=
  { timestamp := 2, lastHash := "hash-one", hash := "h-bad-balance",
    data := [badBalanceTx], nonce := 0, difficulty := 3 }

/-- A well-formed reward transaction: reserved input address, a single
output of exactly `MINING_REWARD`. -/
def goodRewardTx : Tx :=
  { ref := 4, id := "tx-reward",
    input := { timestamp := 6, amount := 0, address := rewardAddress,
               signature := "reward-sig" },
    outputMap := [("miner", MINING_REWARD)] }

/-- A second reward transaction object. -/
def goodRewardTx2 : Tx := { goodRewardTx with ref := 5, id := "tx-reward-2" }

/-- A block containing two reward transactions. -/
def twoRewardBlock : Block :=
  { timestamp := 2, lastHash := "hash-one", hash := "h-two-rewards",
    data := [goodRewardTx, goodRewardTx2], nonce := 0, difficulty := 3 }

/-- A reward transaction whose sole output value is 7 instead of
`MINING_REWARD`. -/
def badRewardTx : Tx :=
  { ref := 6, id := "tx-bad-reward",
    input := { timestamp := 7, amount := 0, address := rewardAddress,
               signature := "reward-sig" },
    outputMap := [("miner", 7)] }

/-- A block carrying `badRewardTx`. -/
def badRewardBlock : Block :=
  { timestamp := 2, lastHash := "hash-one", hash := "h-bad-reward",
    data := [badRewardTx], nonce := 0, difficulty := 3 }

/-- A reward transaction whose first output value is `MINING_REWARD` but
which also credits another address 999999, claims an arbitrary
`input.amount`, and carries a signature that verifies against nothing. -/
def rewardExtraTx : Tx :=
  { ref := 7, id := "tx-reward-extra",
    input := { timestamp := 8, amount := 123456, address := rewardAddress,
               signature := "garbage" },
    outputMap := [("miner", MINING_REWARD), ("mallory", 999999)] }

/-- A block carrying `rewardExtraTx`. -/
def rewardExtraBlock : Block :=
  { timestamp := 2, lastHash := "hash-one", hash := "h-reward-extra",
    data := [rewardExtraTx], nonce := 0, difficulty := 3 }

/-!  Theorems. -/

/-- C1: `replaceChain(candidate, validateTransactions, onSuccess)` replaces
the local chain with the candidate if and only if the candidate is strictly
longer, `isValidChain(candidate)` holds, and, when `validateTransactions` is
set, `validTransactionData(candidate)` holds; in exactly that case
`onSuccess` is invoked; in every other case the candidate is rejected and
the local chain kept. -/
theorem replaceChain_characterization (selfChain cand : List Block) (vt : Bool) (cb : Nat) :
    replaceChain selfChain cand (JsArg.boolean vt) (JsArg.callback cb) =
      if selfChain.length < cand.length ∧ isValidChain cand = true ∧
          (vt = true → validTransactionData selfChain cand = true)
      then ⟨cand, true⟩ else ⟨selfChain, false⟩ := by
  unfold replaceChain
  by_cases hlen : cand.length ≤ selfChain.length
  · rw [if_pos hlen, if_neg (fun hP => absurd hP.1 (by omega))]
  · rw [if_neg hlen]
    by_cases hval : isValidChain cand = true
    · rw [if_neg (not_not_intro hval)]
      cases hvt : vt with
      | false =>
        rw [if_neg (by simp [truthy]), if_pos ⟨by omega, hval, fun hc => Bool.noConfusion hc⟩]
        rfl
      | true =>
        cases hd : validTransactionData selfChain cand with
        | true =>
          rw [if_neg (by simp [truthy, hd]),
            if_pos ⟨by omega, hval, fun _ => rfl⟩]
          rfl
        | false =>
          rw [if_pos (by simp [truthy, hd]),
            if_neg (fun hP => by simpa [hd] using hP.2.2 rfl)]
    · rw [if_pos hval, if_neg (fun hP => hval hP.2.1)]

/-- C3: whenever `replaceChain` rejects the candidate (not longer,
structurally invalid, or invalid transaction data), the local chain is left
completely unchanged. -/
theorem replaceChain_reject_unchanged (selfChain cand : List Block) (vt os : JsArg)
    (h : ¬ (selfChain.length < cand.length ∧ isValidChain cand = true ∧
        (truthy vt = true → validTransactionData selfChain cand = true))) :
    (replaceChain selfChain cand vt os).chain = selfChain := by
  unfold replaceChain
  split_ifs with h1 h2 h3 <;> try rfl
  exfalso
  apply h
  refine ⟨by omega, h2, fun hvt => ?_⟩
  by_contra hd
  apply h3
  simp only [hvt, Bool.true_and, decide_eq_true_eq]
  exact hd

/-- Witness for C3 at a concrete rejected candidate (equal length). -/
theorem replaceChain_reject_unchanged_witness :
    (replaceChain [genesisB] [genesisB] (JsArg.boolean true) (JsArg.callback 0)).chain
      = [genesisB] :=
  replaceChain_reject_unchanged [genesisB] [genesisB] (JsArg.boolean true)
    (JsArg.callback 0) (by decide)

/-- C4: the PubSub `BLOCKCHAIN` branch passes its pool-clearing arrow
function as the second argument of the three-parameter `replaceChain`, so it
is bound to `validateTransactions` and `onSuccess` is `undefined`: at a
concrete valid, strictly longer candidate the chain is replaced but the
pool-clearing callback is never invoked, contradicting the claim that every
successful replacement reaches the pool collaborator. -/
theorem chainUpdateCall_never_calls_pool :
    (chainUpdateCall [genesisB] [genesisB, nextBlock]).chain = [genesisB, nextBlock] ∧
    (chainUpdateCall [genesisB] [genesisB, nextBlock]).onSuccessCalled = false := by
  constructor <;> decide

/-- C10: the reward-amount check inspects only the first value of a reward
transaction's `outputMap`: any block holding a single reward transaction
whose first output value is `MINING_REWARD` passes `validTransactionData`
regardless of the transaction's other output entries, its claimed
`input.amount`, and its signature — none of the non-reward checks run on
it. -/
theorem validTransactionData_reward_first_value_only
    (localChain : List Block) (b : Block) (t : Tx) (a : String)
    (restEntries : List (String × Int))
    (hdata : b.data = [t]) (haddr : t.input.address = rewardAddress)
    (hom : t.outputMap = (a, MINING_REWARD) :: restEntries) :
    validTransactionData localChain [genesisB, b] = true := by
  simp [validTransactionData, hdata, vtxGo, haddr, hom]

/-- Witness for C10: a reward transaction with a 999999 side payment, an
arbitrary claimed input amount and a garbage signature still validates. -/
theorem validTransactionData_reward_first_value_only_witness :
    validTransactionData [genesisB] [genesisB, rewardExtraBlock] = true :=
  validTransactionData_reward_first_value_only [genesisB] rewardExtraBlock
    rewardExtraTx "miner" [("mallory", 999999)] rfl rfl rfl

theorem natListLe_cons_iff (x y : Nat) (as bs : List Nat) :
    natListLe (x :: as) (y :: bs) = true ↔ x < y ∨ (x = y ∧ natListLe as bs = true) := by
  simp only [natListLe]
  constructor
  · intro h
    split_ifs at h with h1 h2
    · exact Or.inl h1
    · exact Or.inr ⟨by omega, h⟩
  · intro h
    rcases h with h | ⟨rfl, h⟩
    · rw [if_pos h]
    · rw [if_neg (by omega), if_neg (by omega)]
      exact h

theorem natListLe_total : ∀ a b : List Nat, natListLe a b = true ∨ natListLe b a = true := by
  intro a
  induction a with
  | nil => intro b; exact Or.inl rfl
  | cons x as ih =>
    intro b
    cases b with
    | nil => exact Or.inr rfl
    | cons y bs =>
      rcases Nat.lt_trichotomy x y with h | h | h
      · exact Or.inl ((natListLe_cons_iff _ _ _ _).mpr (Or.inl h))
      · rcases ih bs with hr | hr
        · exact Or.inl ((natListLe_cons_iff _ _ _ _).mpr (Or.inr ⟨h, hr⟩))
        · exact Or.inr ((natListLe_cons_iff _ _ _ _).mpr (Or.inr ⟨h.symm, hr⟩))
      · exact Or.inr ((natListLe_cons_iff _ _ _ _).mpr (Or.inl h))

theorem natListLe_trans : ∀ a b c : List Nat,
    natListLe a b = true → natListLe b c = true → natListLe a c = true := by
  intro a
  induction a with
  | nil => intro b c _ _; rfl
  | cons x as ih =>
    intro b c hab hbc
    cases b with
    | nil => simp [natListLe] at hab
    | cons y bs =>
      cases c with
      | nil => simp [natListLe] at hbc
      | cons z cs =>
        rcases (natListLe_cons_iff _ _ _ _).mp hab with h1 | ⟨h1, h1r⟩ <;>
          rcases (natListLe_cons_iff _ _ _ _).mp hbc with h2 | ⟨h2, h2r⟩ <;>
          apply (natListLe_cons_iff _ _ _ _).mpr
        · exact Or.inl (by omega)
        · exact Or.inl (by omega)
        · exact Or.inl (by omega)
        · exact Or.inr ⟨by omega, ih bs cs h1r h2r⟩

theorem natListLe_antisymm : ∀ a b : List Nat,
    natListLe a b = true → natListLe b a = true → a = b := by
  intro a
  induction a with
  | nil =>
    intro b _ hba
    cases b with
    | nil => rfl
    | cons y bs => simp [natListLe] at hba
  | cons x as ih =>
    intro b hab hba
    cases b with
    | nil => simp [natListLe] at hab
    | cons y bs =>
      rcases (natListLe_cons_iff _ _ _ _).mp hab with h1 | ⟨h1, h1r⟩ <;>
        rcases (natListLe_cons_iff _ _ _ _).mp hba with h2 | ⟨h2, h2r⟩
      · omega
      · omega
      · omega
      · rw [show x = y by omega, ih bs h1r h2r]

theorem charCodes_injective (s t : String)
    (h : s.data.map Char.toNat = t.data.map Char.toNat) : s = t := by
  apply String.ext
  apply List.map_injective_iff.mpr _ h
  intro c d hcd
  exact Char.ext (UInt32.ext hcd)

instance : IsTotal String (fun a b => strLe a b = true) :=
  ⟨fun _ _ => natListLe_total _ _⟩

instance : IsTrans String (fun a b => strLe a b = true) :=
  ⟨fun _ _ _ h1 h2 => natListLe_trans _ _ _ h1 h2⟩

instance : IsAntisymm String (fun a b => strLe a b = true) :=
  ⟨fun a b h1 h2 => charCodes_injective a b (natListLe_antisymm _ _ h1 h2)⟩

/-- C9: the hash is order-independent: for all inputs `a`, `b`, `c`,
`hash(a, b, c) = hash(c, a, b)` — the serialized forms are sorted before
concatenation, so a permutation of the inputs leaves the digest
unchanged. -/
theorem cryptoHash_order_independent (a b c : Jv) :
    cryptoHash [a, b, c] = cryptoHash [c, a, b] := by
  unfold cryptoHash
  have hperm : ([a, b, c].map stringify).Perm ([c, a, b].map stringify) := by
    simpa using @List.perm_append_comm _ [stringify a, stringify b] [stringify c]
  have hsorted := List.eq_of_perm_of_sorted
    (((List.perm_insertionSort (fun a b => strLe a b = true) _).trans hperm).trans
      (List.perm_insertionSort (fun a b => strLe a b = true) _).symm)
    (List.sorted_insertionSort (fun a b => strLe a b = true) _)
    (List.sorted_insertionSort (fun a b => strLe a b = true) _)
  rw [hsorted]

theorem adjOk_iff (p b : Block) :
    adjOk p b = true ↔
      (b.lastHash = p.hash ∧ b.hash = blockHash b ∧
        (b.difficulty - p.difficulty).natAbs ≤ 1) := by
  simp only [adjOk, Bool.and_eq_true, decide_eq_true_eq]
  constructor
  · rintro ⟨⟨h1, h2⟩, h3⟩
    exact ⟨h1, h2, by omega⟩
  · rintro ⟨h1, h2, h3⟩
    exact ⟨⟨h1, h2⟩, by omega⟩

theorem chainOk_iff_get (l : List Block) : ∀ p : Block,
    chainOk p l = true ↔
      ∀ i (h : i + 1 < (p :: l).length),
        adjOk ((p :: l).get ⟨i, Nat.lt_of_succ_lt h⟩) ((p :: l).get ⟨i + 1, h⟩) = true := by
  induction l with
  | nil =>
    intro p
    constructor
    · intro _ i h
      exact absurd h (by simp)
    · intro _
      rfl
  | cons b rest ih =>
    intro p
    constructor
    · intro hok i h
      rw [chainOk, Bool.and_eq_true] at hok
      match i with
      | 0 => exact hok.1
      | (j+1) =>
        exact (ih b).mp hok.2 j (by simp only [List.length_cons] at h ⊢; omega)
    · intro hall
      rw [chainOk, Bool.and_eq_true]
      exact ⟨hall 0 (by simp),
        (ih b).mpr fun j hj =>
          hall (j+1) (by simp only [List.length_cons] at hj ⊢; omega)⟩

/-- C2: `isValidChain(chain)` is true if and only if `chain[0]` equals the
fixed genesis block and every later block links to its predecessor's hash,
stores the digest re-derived from its own `timestamp`, `lastHash`, `data`,
`nonce` and `difficulty`, and moves difficulty by at most 1; in particular
`isValidChain([genesis])` is true and any change to `chain[0]` makes the
result false. -/
theorem isValidChain_characterization :
    (∀ chain : List Block, isValidChain chain = true ↔
      (chain.head? = some genesisB ∧
        ∀ i (h : i + 1 < chain.length),
          (chain.get ⟨i + 1, h⟩).lastHash = (chain.get ⟨i, Nat.lt_of_succ_lt h⟩).hash ∧
          (chain.get ⟨i + 1, h⟩).hash = blockHash (chain.get ⟨i + 1, h⟩) ∧
          ((chain.get ⟨i + 1, h⟩).difficulty
              - (chain.get ⟨i, Nat.lt_of_succ_lt h⟩).difficulty).natAbs ≤ 1))
    ∧ isValidChain [genesisB] = true
    ∧ (∀ b rest, b ≠ genesisB → isValidChain (b :: rest) = false) := by
  refine ⟨?_, by decide, ?_⟩
  · intro chain
    cases chain with
    | nil =>
      constructor
      · intro h
        exact absurd h (by simp [isValidChain])
      · rintro ⟨h, _⟩
        simp at h
    | cons g rest =>
      by_cases hg : g = genesisB
      · subst hg
        rw [isValidChain, if_pos rfl, chainOk_iff_get]
        constructor
        · intro hall
          exact ⟨rfl, fun i h => (adjOk_iff _ _).mp (hall i h)⟩
        · rintro ⟨_, hall⟩ i h
          exact (adjOk_iff _ _).mpr (hall i h)
      · rw [isValidChain, if_neg hg]
        constructor
        · intro h
          exact absurd h (by simp)
        · rintro ⟨h, _⟩
          simp at h
          exact absurd h hg
  · intro b rest hb
    rw [isValidChain, if_neg hb]

/-- Witness for C2: the genesis singleton validates, and changing the
genesis block's nonce makes validation fail. -/
theorem isValidChain_characterization_witness :
    isValidChain [genesisB] = true ∧
      isValidChain [{ genesisB with nonce := 1 }] = false :=
  ⟨isValidChain_characterization.2.1,
    isValidChain_characterization.2.2 { genesisB with nonce := 1 } [] (by decide)⟩

theorem vtxGo_reward_overflow (L : List Block) :
    ∀ (l : List Tx) (rc : Nat) (seen : List Nat),
      1 ≤ rc → (∃ t ∈ l, t.input.address = rewardAddress) →
      vtxGo L l rc seen = false := by
  intro l
  induction l with
  | nil =>
    rintro rc seen _ ⟨t, ht, _⟩
    exact absurd ht (List.not_mem_nil t)
  | cons t rest ih =>
    rintro rc seen hrc ⟨u, hu, hua⟩
    rw [vtxGo]
    by_cases ht : t.input.address = rewardAddress
    · rw [if_pos ht, if_pos (by omega)]
    · rw [if_neg ht]
      rcases List.mem_cons.mp hu with rfl | hu2
      · exact absurd hua ht
      · split_ifs <;> try rfl
        exact ih rc (t.ref :: seen) hrc ⟨u, hu2, hua⟩

theorem vtxGo_two_rewards (L : List Block) :
    ∀ (l : List Tx) (rc : Nat) (seen : List Nat),
      2 ≤ l.countP (fun t => decide (t.input.address = rewardAddress)) →
      vtxGo L l rc seen = false := by
  intro l
  induction l with
  | nil =>
    intro rc seen h
    simp [List.countP_nil] at h
  | cons t rest ih =>
    intro rc seen h
    rw [vtxGo]
    by_cases ht : t.input.address = rewardAddress
    · rw [if_pos ht]
      by_cases hrc : rc + 1 > 1
      · rw [if_pos hrc]
      · rw [if_neg hrc]
        have hcount : 0 < rest.countP (fun t => decide (t.input.address = rewardAddress)) := by
          rw [List.countP_cons_of_pos _ _ (by simpa using ht)] at h
          omega
        obtain ⟨u, hu, hua⟩ := List.countP_pos_iff.mp hcount
        split_ifs <;> try rfl
        exact vtxGo_reward_overflow L rest (rc + 1) seen (by omega)
          ⟨u, hu, by simpa using hua⟩
    · rw [if_neg ht]
      have hcount : 2 ≤ rest.countP (fun t => decide (t.input.address = rewardAddress)) := by
        rw [List.countP_cons_of_neg _ _ (by simpa using ht)] at h
        exact h
      split_ifs <;> try rfl
      exact ih rc (t.ref :: seen) hcount

theorem vtxGo_true_notin_seen (L : List Block) :
    ∀ (l : List Tx) (rc : Nat) (seen : List Nat),
      vtxGo L l rc seen = true →
      ∀ t ∈ l, t.input.address ≠ rewardAddress → seen.contains t.ref = false := by
  intro l
  induction l with
  | nil =>
    intro rc seen _ t ht
    exact absurd ht (List.not_mem_nil t)
  | cons u rest ih =>
    intro rc seen hgo t ht hta
    rw [vtxGo] at hgo
    by_cases hu : u.input.address = rewardAddress
    · rw [if_pos hu] at hgo
      split_ifs at hgo
      rcases List.mem_cons.mp ht with rfl | ht2
      · exact absurd hu hta
      · exact ih (rc + 1) seen hgo t ht2 hta
    · rw [if_neg hu] at hgo
      split_ifs at hgo with h1 h2 h3
      rcases List.mem_cons.mp ht with rfl | ht2
      · simpa using h3
      · have hc := ih rc (u.ref :: seen) hgo t ht2 hta
        simp only [List.contains_cons, Bool.or_eq_false_iff] at hc
        exact hc.2

theorem vtxGo_true_count (L : List Block) :
    ∀ (l : List Tx) (rc : Nat) (seen : List Nat),
      vtxGo L l rc seen = true → ∀ t : Tx, l.count t ≤ 1 := by
  intro l
  induction l with
  | nil =>
    intro rc seen _ t
    simp
  | cons u rest ih =>
    intro rc seen hgo t
    rw [vtxGo] at hgo
    by_cases hu : u.input.address = rewardAddress
    · rw [if_pos hu] at hgo
      split_ifs at hgo
      by_cases htu : t = u
      · subst htu
        have hnotin : t ∉ rest := by
          intro hmem
          rw [vtxGo_reward_overflow L rest (rc + 1) seen (by omega) ⟨t, hmem, hu⟩] at hgo
          exact Bool.noConfusion hgo
        simp [List.count_cons_self, List.count_eq_zero.mpr hnotin]
      · rw [List.count_cons_of_ne htu]
        exact ih (rc + 1) seen hgo t
    · rw [if_neg hu] at hgo
      split_ifs at hgo with h1 h2 h3
      by_cases htu : t = u
      · subst htu
        have hnotin : t ∉ rest := by
          intro hmem
          have hc := vtxGo_true_notin_seen L rest rc (t.ref :: seen) hgo t hmem hu
          simp [List.contains_cons] at hc
        simp [List.count_cons_self, List.count_eq_zero.mpr hnotin]
      · rw [List.count_cons_of_ne htu]
        exact ih rc (u.ref :: seen) hgo t

theorem vtxGo_balance (L : List Block) :
    ∀ (l : List Tx) (rc : Nat) (seen : List Nat) (t : Tx),
      t ∈ l → t.input.address ≠ rewardAddress →
      t.input.amount ≠ calculateBalance L t.input.address →
      vtxGo L l rc seen = false := by
  intro l
  induction l with
  | nil =>
    intro rc seen t ht
    exact absurd ht (List.not_mem_nil t)
  | cons u rest ih =>
    intro rc seen t ht hta hamt
    rw [vtxGo]
    rcases List.mem_cons.mp ht with rfl | ht2
    · rw [if_neg hta]
      by_cases hv : validTransaction t = true
      · rw [if_neg (not_not_intro hv), if_pos hamt]
      · rw [if_pos hv]
    · by_cases hu : u.input.address = rewardAddress
      · rw [if_pos hu]
        split_ifs <;> try rfl
        exact ih (rc + 1) seen t ht2 hta hamt
      · rw [if_neg hu]
        split_ifs <;> try rfl
        exact ih rc (u.ref :: seen) t ht2 hta hamt

theorem vtxGo_reward_amount (L : List Block) :
    ∀ (l : List Tx) (rc : Nat) (seen : List Nat) (t : Tx),
      t ∈ l → t.input.address = rewardAddress →
      (t.outputMap.map Prod.snd).head? ≠ some MINING_REWARD →
      vtxGo L l rc seen = false := by
  intro l
  induction l with
  | nil =>
    intro rc seen t ht
    exact absurd ht (List.not_mem_nil t)
  | cons u rest ih =>
    intro rc seen t ht hta hbad
    rw [vtxGo]
    rcases List.mem_cons.mp ht with rfl | ht2
    · rw [if_pos hta]
      by_cases hrc : rc + 1 > 1
      · rw [if_pos hrc]
      · rw [if_neg hrc, if_pos hbad]
    · by_cases hu : u.input.address = rewardAddress
      · rw [if_pos hu]
        split_ifs <;> try rfl
        exact ih (rc + 1) seen t ht2 hta hbad
      · rw [if_neg hu]
        split_ifs <;> try rfl
        exact ih rc (u.ref :: seen) t ht2 hta hbad

theorem validTransactionData_of_block_false (localChain cand : List Block) (b : Block)
    (hb : b ∈ cand.drop 1) (hfalse : vtxGo localChain b.data 0 [] = false) :
    validTransactionData localChain cand = false := by
  rw [validTransactionData]
  cases hall : (cand.drop 1).all (fun b => vtxGo localChain b.data 0 [])
  · rfl
  · have hbt := List.all_eq_true.mp hall b hb
    rw [hfalse] at hbt
    exact Bool.noConfusion hbt

/-- C5: every non-reward transaction in a non-genesis block of the candidate
must claim exactly the balance of its sender as computed over the
validator's own local chain; any mismatch makes `validTransactionData`
false for the whole candidate. -/
theorem validTransactionData_balance_against_local (localChain cand : List Block)
    (b : Block) (t : Tx)
    (hb : b ∈ cand.drop 1) (ht : t ∈ b.data)
    (haddr : t.input.address ≠ rewardAddress)
    (hamt : t.input.amount ≠ calculateBalance localChain t.input.address) :
    validTransactionData localChain cand = false :=
  validTransactionData_of_block_false localChain cand b hb
    (vtxGo_balance localChain b.data 0 [] t ht haddr hamt)

/-- Witness for C5: a transaction claiming amount 5 while its sender holds 0
on the local chain invalidates the candidate. -/
theorem validTransactionData_balance_against_local_witness :
    validTransactionData [genesisB] [genesisB, badBalanceBlock] = false :=
  validTransactionData_balance_against_local [genesisB] [genesisB, badBalanceBlock]
    badBalanceBlock badBalanceTx (by decide) (by decide) (by decide) (by decide)

/-- C6: a single non-genesis block containing more than one reward
transaction makes `validTransactionData` false for the whole candidate
chain. -/
theorem validTransactionData_reward_limit (localChain cand : List Block) (b : Block)
    (hb : b ∈ cand.drop 1)
    (hcount : 2 ≤ b.data.countP (fun t => decide (t.input.address = rewardAddress))) :
    validTransactionData localChain cand = false :=
  validTransactionData_of_block_false localChain cand b hb
    (vtxGo_two_rewards localChain b.data 0 [] hcount)

/-- Witness for C6: a block with two well-formed reward transactions is
rejected. -/
theorem validTransactionData_reward_limit_witness :
    validTransactionData [genesisB] [genesisB, twoRewardBlock] = false :=
  validTransactionData_reward_limit [genesisB] [genesisB, twoRewardBlock]
    twoRewardBlock (by decide) (by decide)

/-- C7: a reward transaction whose sole `outputMap` value differs from
`MINING_REWARD` makes `validTransactionData` false for the whole candidate
chain. -/
theorem validTransactionData_reward_amount_invalid (localChain cand : List Block)
    (b : Block) (t : Tx) (a : String) (v : Int)
    (hb : b ∈ cand.drop 1) (ht : t ∈ b.data)
    (haddr : t.input.address = rewardAddress)
    (hom : t.outputMap = [(a, v)]) (hv : v ≠ MINING_REWARD) :
    validTransactionData localChain cand = false :=
  validTransactionData_of_block_false localChain cand b hb
    (vtxGo_reward_amount localChain b.data 0 [] t ht haddr (by simpa [hom] using hv))

/-- Witness for C7: a reward transaction paying 7 instead of the fixed
reward invalidates the candidate. -/
theorem validTransactionData_reward_amount_invalid_witness :
    validTransactionData [genesisB] [genesisB, badRewardBlock] = false :=
  validTransactionData_reward_amount_invalid [genesisB] [genesisB, badRewardBlock]
    badRewardBlock badRewardTx "miner" 7 (by decide) (by decide) (by decide) rfl
    (by decide)

/-- C8: listing the same transaction instance (same object identity) more
than once in a single block makes `validTransactionData` false, while two
distinct transaction objects with identical content in one block pass this
check. -/
theorem validTransactionData_duplicate_detection :
    (∀ (localChain cand : List Block) (b : Block) (t : Tx),
        b ∈ cand.drop 1 → 2 ≤ b.data.count t →
        validTransactionData localChain cand = false)
    ∧ (txA.ref ≠ txB.ref ∧ txA.id = txB.id ∧ txA.input = txB.input ∧
        txA.outputMap = txB.outputMap ∧
        validTransactionData [genesisB] [genesisB, dupContentBlock] = true) := by
  constructor
  · intro localChain cand b t hb hcount
    apply validTransactionData_of_block_false localChain cand b hb
    cases hgo : vtxGo localChain b.data 0 []
    · rfl
    · exact absurd (vtxGo_true_count localChain b.data 0 [] hgo t) (by omega)
  · exact ⟨by decide, by decide, by decide, by decide, by decide⟩

/-- Witness for C8: a block listing the same transaction object twice is
rejected. -/
theorem validTransactionData_duplicate_detection_witness :
    validTransactionData [genesisB] [genesisB, dupInstanceBlock] = false :=
  validTransactionData_duplicate_detection.1 [genesisB] [genesisB, dupInstanceBlock]
    dupInstanceBlock txA (by decide) (by decide)

end Lumi
